import Mathlib

set_option linter.dupNamespace false

/-!
Verification of the pgkit pagination helper (`page.go`).

The Go source is shallowly embedded below: pure functions become Lean
functions, the in-place mutation of a `*Page` becomes explicit return of the
updated record, a possibly-nil `*Page` becomes `Option Page`, and the `uint32`
casts of Go are made explicit with `% 2^32`.  Go string operations that slice
or split at byte level are embedded on the character list of the string
(all separators involved are ASCII, so byte and character indexing agree).
The external squirrel `SelectBuilder` collaborator (not part of this
repository) is modelled, per the spec's external-interface section, as a
record holding the limit, offset and order-by clauses that `PrepareQuery`
installs.
-/

namespace Pgkit

/-- `DefaultPageSize` constant from `page.go`: default rows per page. -/
def DefaultPageSize : Nat := 10

/-- `MaxPageSize` constant from `page.go`: maximum rows per page. -/
def MaxPageSize : Nat := 50

/-- `OrderType` is a string type in Go; the `Desc` constant. -/
def Desc : String := "DESC"

/-- The `Asc` constant of `OrderType`. -/
def Asc : String := "ASC"

/-- Embedding of Go's `Sort` struct (named `PgSort` because `Sort` is a Lean
keyword): a column name plus a direction string. -/
structure PgSort where
  Column : String
  Order : String
deriving Repr, DecidableEq

/-- `Sort.String()`: empty column renders as `""`; an empty order defaults to
`ASC`; otherwise `"<Column> <Order>"`. -/
def PgSort.toString (s : PgSort) : String :=
  if s.Column = "" then ""
  else
    let ord := if s.Order = "" then Asc else s.Order
    s.Column ++ " " ++ ord

/-- A word fully matching the regular expression `-?([a-zA-Z0-9]+)`:
an optional leading `-` followed by a nonempty run of ASCII alphanumerics. -/
def matchesOrderByWord (w : List Char) : Bool :=
  match w with
  | [] => false
  | c :: rest =>
    if c = '-' then rest ≠ [] && rest.all Char.isAlphanum
    else (c :: rest).all Char.isAlphanum

/-- `_MatcherOrderBy.MatchString(s)`: Go's `MatchString` is a substring
search, so it succeeds iff some contiguous substring of `s` fully matches
`-?([a-zA-Z0-9]+)`. -/
def matcherOrderByMatch (s : String) : Bool :=
  s.toList.tails.any fun t => t.inits.any matchesOrderByWord

/-- `NewSort`: fails when the spec is empty or the regex finds no match;
otherwise a leading `-` (`strings.HasPrefix(s, "-")`) selects `DESC` on
`s[1:]`, and any other string selects `ASC` on the whole string.  Go's
`(Sort, bool)` pair is embedded as `Option PgSort`; the byte slice `s[1:]`
after a 1-byte `-` is the tail of the character list. -/
def NewSort (s : String) : Option PgSort :=
  if s = "" || !(matcherOrderByMatch s) then none
  else if s.toList.head? = some '-' then some ⟨⟨s.toList.tail⟩, Desc⟩
  else some ⟨s, Asc⟩

/-- Embedding of Go's `Page` struct.  Go's `uint32` fields are carried as
`Nat`; the casts in the source are made explicit where they occur. -/
structure Page where
  Size : Nat
  Page : Nat
  More : Bool
  Column : String
  Order : List PgSort
deriving Repr, DecidableEq

/-- `NewPage(size, page, sort...)`: zero arguments are normalized eagerly. -/
def NewPage (size page : Nat) (sort : List PgSort) : Page :=
  let size := if size = 0 then DefaultPageSize else size
  let page := if page = 0 then 1 else page
  { Size := size, Page := page, More := false, Column := "", Order := sort }

/-- `strings.Split` with a one-character separator, on character lists. -/
def splitChar (sep : Char) : List Char → List (List Char)
  | [] => [[]]
  | c :: rest =>
    match splitChar sep rest with
    | h :: t => if c = sep then [] :: h :: t else (c :: h) :: t
    | [] => if c = sep then [[], []] else [[c]]

/-- `strings.Split(s, ",")`, as strings. -/
def splitComma (s : String) : List String :=
  (splitChar ',' s.toList).map fun cs => ⟨cs⟩

/-- `Page.GetOrder`: structured `Order` wins; else a nil page or empty
`Column` falls back to the default sort specs; else the `Column` string is
split on `,`.  Invalid specs are silently dropped (`filterMap`). -/
def Page.GetOrder (p : Option Pgkit.Page) (defaultSort : List String) : List PgSort :=
  match p with
  | some pg =>
    if pg.Order.length ≠ 0 then pg.Order
    else if pg.Column = "" then defaultSort.filterMap NewSort
    else (splitComma pg.Column).filterMap NewSort
  | none => defaultSort.filterMap NewSort

/-- `Page.Limit`: the `Size` field when present and nonzero, else
`DefaultPageSize`, clamped above by `MaxPageSize`. -/
def Page.Limit (p : Option Pgkit.Page) : Nat :=
  let n := match p with
    | some pg => if pg.Size ≠ 0 then pg.Size else DefaultPageSize
    | none => DefaultPageSize
  if n > MaxPageSize then MaxPageSize else n

/-- `Page.Offset`: `(n-1) * Limit()` where `n` is the `Page` field when
present and nonzero, else `1` (the extra `n < 1` clamp in the source is a
no-op for unsigned `n`). -/
def Page.Offset (p : Option Pgkit.Page) : Nat :=
  let n := match p with
    | some pg => if pg.Page ≠ 0 then pg.Page else 1
    | none => 1
  let n := if n < 1 then 1 else n
  (n - 1) * Page.Limit p

/-- `PaginatorOption`: configuration of a paginator. -/
structure PaginatorOption where
  defaultSize : Nat
  maxSize : Nat
  defaultSort : List String
  columnFunc : Option (String → String)

/-- `WithDefaultSize` option. -/
def WithDefaultSize (size : Nat) : PaginatorOption → PaginatorOption :=
  fun o => { o with defaultSize := size }

/-- `WithMaxSize` option. -/
def WithMaxSize (size : Nat) : PaginatorOption → PaginatorOption :=
  fun o => { o with maxSize := size }

/-- `WithSort` option. -/
def WithSort (sort : List String) : PaginatorOption → PaginatorOption :=
  fun o => { o with defaultSort := sort }

/-- `WithColumnFunc` option. -/
def WithColumnFunc (f : String → String) : PaginatorOption → PaginatorOption :=
  fun o => { o with columnFunc := some f }

/-- `NewPaginator`: start from `{defaultSize: 10, maxSize: 50}` and apply the
option functions in order.  The Go `Paginator[T]` struct only embeds its
`PaginatorOption`, so the paginator is embedded as that record. -/
def NewPaginator (options : List (PaginatorOption → PaginatorOption)) : PaginatorOption :=
  options.foldl (fun o fn => fn o)
    { defaultSize := DefaultPageSize, maxSize := MaxPageSize,
      defaultSort := [], columnFunc := none }

/-- Model of the external squirrel `SelectBuilder` collaborator, per the
spec's interface: it records the installed row limit, offset and order-by
clauses. -/
structure SelectBuilder where
  limit : Option Nat
  offset : Option Nat
  orderBys : List String
deriving Repr, DecidableEq

/-- `Paginator.getOrder`: resolve the sorts via `Page.GetOrder` with the
configured default specs, apply `columnFunc` (when set) to each column, and
render each via `Sort.String()`, one output entry per sort. -/
def Paginator.getOrder (p : PaginatorOption) (page : Option Pgkit.Page) : List String :=
  (Page.GetOrder page p.defaultSort).map fun s =>
    let s := match p.columnFunc with
      | some f => { s with Column := f s.Column }
      | none => s
    s.toString

/-- `Paginator.PrepareQuery`: adjust a non-nil page's `Size` (default, then
clamp to the paginator's `maxSize`), install `limit+1`, the offset and the
order-by strings on the query, and return the capacity of the freshly
allocated empty result container (`limit+1`), the augmented query and the
mutated page. -/
def Paginator.PrepareQuery (p : PaginatorOption) (q : SelectBuilder)
    (page : Option Pgkit.Page) : Nat × SelectBuilder × Option Pgkit.Page :=
  let page := match page with
    | some pg =>
      let pg := if pg.Size = 0 then { pg with Size := p.defaultSize } else pg
      let pg := if pg.Size > p.maxSize then { pg with Size := p.maxSize } else pg
      some pg
    | none => none
  let limit := Page.Limit page
  let q := { q with
    limit := some (Page.Limit page + 1),
    offset := some (Page.Offset page),
    orderBys := Paginator.getOrder p page }
  (limit + 1, q, page)

/-- Go's `uint32` conversion. -/
def u32 (n : Nat) : Nat := n % 4294967296

/-- `Paginator.PrepareResult`: compute the limit from the incoming page, set
`More`, truncate the over-fetched row when present, then overwrite `Size`
with the limit and recompute `Page` as `1 + uint32(Offset())/uint32(limit)`
— with `Offset()` evaluated after `Size` was already overwritten, exactly as
in the source.  The paginator receiver is unused, as in the source. -/
def Paginator.PrepareResult {α : Type} (_p : PaginatorOption) (result : List α)
    (page : Pgkit.Page) : List α × Pgkit.Page :=
  let limit := Page.Limit (some page)
  let more := result.length > limit
  let result := if more then result.take limit else result
  let page := { page with More := more }
  let page := { page with Size := u32 limit }
  let page := { page with Page := u32 (1 + u32 (Page.Offset (some page)) / u32 limit) }
  (result, page)

/-- `strings.ToLower` restricted to ASCII (the only use in the reference
test is on the ASCII string `"ID"`). -/
def asciiToLower (s : String) : String :=
  ⟨s.toList.map fun c => if 'A' ≤ c && c ≤ 'Z' then Char.ofNat (c.toNat + 32) else c⟩

/-- The `Size` field of a possibly-absent page (0 when absent), used to state
properties of the nil-tolerant accessors. -/
def sizeField (p : Option Pgkit.Page) : Nat := (p.map Pgkit.Page.Size).getD 0

/-- The `Page` field of a possibly-absent page (0 when absent). -/
def pageField (p : Option Pgkit.Page) : Nat := (p.map Pgkit.Page.Page).getD 0

/-- The column transformation step of `Paginator.getOrder`, as applied to a
single sort. -/
def applyColumnFunc (o : PaginatorOption) (s : PgSort) : PgSort :=
  match o.columnFunc with
  | some f => { s with Column := f s.Column }
  | none => s

/-- The size adjustment that `PrepareQuery` performs on a non-nil page:
a zero `Size` is replaced by the paginator's `defaultSize`, and the result is
clamped above by the paginator's `maxSize`. -/
def adjustSize (p : PaginatorOption) (pg : Pgkit.Page) : Pgkit.Page :=
  { pg with Size :=
      if (if pg.Size = 0 then p.defaultSize else pg.Size) > p.maxSize
      then p.maxSize
      else (if pg.Size = 0 then p.defaultSize else pg.Size) }

/-- The paginator of the reference test: lowercase column function,
`defaultSize = 2`, `maxSize = 5`, default sort `["ID"]`. -/
def c1Paginator : PaginatorOption :=
  NewPaginator [WithColumnFunc asciiToLower, WithDefaultSize 2, WithMaxSize 5,
    WithSort ["ID"]]

/-- A fresh select builder, before pagination is applied. -/
def emptySelect : SelectBuilder := { limit := none, offset := none, orderBys := [] }

/-- A page whose recomputed offset `(Page-1)*50 = 4999999950` overflows
`uint32`. -/
def c9Page : Pgkit.Page :=
  { Size := 50, Page := 100000000, More := false, Column := "", Order := [] }

end Pgkit

namespace Pgkit

theorem limit_pos (p : Option Pgkit.Page) : 1 ≤ Page.Limit p := by
  rcases p with _ | pg
  · decide
  · simp only [Page.Limit, DefaultPageSize, MaxPageSize]
    split_ifs <;> omega

theorem limit_le (p : Option Pgkit.Page) : Page.Limit p ≤ 50 := by
  rcases p with _ | pg
  · decide
  · simp only [Page.Limit, DefaultPageSize, MaxPageSize]
    split_ifs <;> omega

theorem limit_eq_min (p : Option Pgkit.Page) :
    Page.Limit p = min (if sizeField p = 0 then 10 else sizeField p) 50 := by
  rcases p with _ | pg
  · decide
  · simp only [Page.Limit, sizeField, DefaultPageSize, MaxPageSize,
      Option.map_some', Option.getD_some, ne_eq]
    split_ifs <;> omega

theorem offset_eq (p : Option Pgkit.Page) :
    Page.Offset p = (max (pageField p) 1 - 1) * Page.Limit p := by
  rcases p with _ | pg
  · simp [Page.Offset, pageField]
  · simp only [Page.Offset, pageField, Option.map_some', Option.getD_some, ne_eq]
    split_ifs <;> exact congrArg (· * Page.Limit (some pg)) (by omega)

/-- C1: with the reference-test paginator (`defaultSize=2`, `maxSize=5`,
default sort `["ID"]`, lowercase column function), `PrepareQuery` on
`NewPage(0,0)` yields the page `{Page:1, Size:5}`, order-by `"id ASC"`,
query limit `6` and offset `0` (and a container of capacity 6). -/
theorem C1_end_to_end :
    Paginator.PrepareQuery c1Paginator emptySelect (some (NewPage 0 0 [])) =
      (6,
       { limit := some 6, offset := some 0, orderBys := ["id ASC"] },
       some { Size := 5, Page := 1, More := false, Column := "", Order := [] }) := by
  decide

/-- C4: for every page, absent or not, `Limit()` lies in `[1, 50]`, equals
the `Size` field when nonzero (else 10) clamped above by 50, and `Offset()`
equals `(max(Page,1)-1) * Limit()`. -/
theorem C4_limit_offset (p : Option Pgkit.Page) :
    (1 ≤ Page.Limit p ∧ Page.Limit p ≤ 50) ∧
    Page.Limit p = min (if sizeField p = 0 then 10 else sizeField p) 50 ∧
    Page.Offset p = (max (pageField p) 1 - 1) * Page.Limit p :=
  ⟨⟨limit_pos p, limit_le p⟩, limit_eq_min p, offset_eq p⟩

theorem prepareQuery_some_eq (p : PaginatorOption) (q : SelectBuilder)
    (pg : Pgkit.Page) :
    Paginator.PrepareQuery p q (some pg) =
      (Page.Limit (some (adjustSize p pg)) + 1,
       { limit := some (Page.Limit (some (adjustSize p pg)) + 1),
         offset := some (Page.Offset (some (adjustSize p pg))),
         orderBys := Paginator.getOrder p (some (adjustSize p pg)) },
       some (adjustSize p pg)) := by
  rcases pg with ⟨sz, pn, mo, co, od⟩
  unfold Paginator.PrepareQuery adjustSize
  by_cases h : sz = 0
  · subst h
    by_cases h2 : p.defaultSize > p.maxSize <;> simp [h2]
  · by_cases h2 : sz > p.maxSize <;> simp [h, h2]

/-- C5: `Limit()` never returns 0, so the divisor `uint32(limit)` in
`PrepareResult` is never zero; and a paginator configured with
`defaultSize = 0` or `maxSize = 0` degrades the page size to the global
default (10) rather than to 0. -/
theorem C5_no_division_by_zero :
    (∀ p : Option Pgkit.Page, Page.Limit p ≠ 0) ∧
    (∀ pg : Pgkit.Page, u32 (Page.Limit (some pg)) ≠ 0) ∧
    (∀ (o : PaginatorOption) (q : SelectBuilder) (pg : Pgkit.Page),
      o.defaultSize = 0 → pg.Size = 0 →
      Page.Limit (Paginator.PrepareQuery o q (some pg)).2.2 = DefaultPageSize) ∧
    (∀ (o : PaginatorOption) (q : SelectBuilder) (pg : Pgkit.Page),
      o.maxSize = 0 →
      Page.Limit (Paginator.PrepareQuery o q (some pg)).2.2 = DefaultPageSize) := by
  refine ⟨fun p => by have := limit_pos p; omega,
    fun pg => ?_, fun o q pg h0 hs => ?_, fun o q pg hm => ?_⟩
  · have h1 := limit_pos (some pg)
    have h2 := limit_le (some pg)
    simp only [u32]
    omega
  · rw [prepareQuery_some_eq]
    have hsz : (adjustSize o pg).Size = 0 := by
      simp [adjustSize, hs, h0]
    simp [Page.Limit, hsz, DefaultPageSize, MaxPageSize]
  · rw [prepareQuery_some_eq]
    have hsz : (adjustSize o pg).Size = 0 := by
      simp only [adjustSize, hm]
      split_ifs <;> omega
    simp [Page.Limit, hsz, DefaultPageSize, MaxPageSize]

/-- C5 witness: concrete instance with `defaultSize = 0` and a zero-size
page: the limit degrades to the global default 10. -/
theorem C5_witness :
    Page.Limit (Paginator.PrepareQuery ⟨0, 50, [], none⟩ emptySelect
      (some ⟨0, 1, false, "", []⟩)).2.2 = DefaultPageSize :=
  C5_no_division_by_zero.2.2.1 ⟨0, 50, [], none⟩ emptySelect
    ⟨0, 1, false, "", []⟩ rfl rfl

/-- C2: on a non-nil page, `PrepareQuery` first replaces a zero `Size` with
the paginator's `defaultSize` and then clamps `Size` to the paginator's
`maxSize`; it installs row limit `limit+1`, offset `Offset()` and the
resolved order strings on the query, and returns an empty container of
capacity `limit+1` together with the augmented query and the adjusted
page. -/
theorem C2_PrepareQuery (p : PaginatorOption) (q : SelectBuilder)
    (pg : Pgkit.Page) :
    (adjustSize p pg).Size =
      (if (if pg.Size = 0 then p.defaultSize else pg.Size) > p.maxSize
       then p.maxSize else (if pg.Size = 0 then p.defaultSize else pg.Size)) ∧
    (adjustSize p pg).Page = pg.Page ∧ (adjustSize p pg).More = pg.More ∧
    (adjustSize p pg).Column = pg.Column ∧ (adjustSize p pg).Order = pg.Order ∧
    Paginator.PrepareQuery p q (some pg) =
      (Page.Limit (some (adjustSize p pg)) + 1,
       { limit := some (Page.Limit (some (adjustSize p pg)) + 1),
         offset := some (Page.Offset (some (adjustSize p pg))),
         orderBys := Paginator.getOrder p (some (adjustSize p pg)) },
       some (adjustSize p pg)) :=
  ⟨rfl, rfl, rfl, rfl, rfl, prepareQuery_some_eq p q pg⟩

/-- C3: `PrepareResult` sets `More` to whether more rows than the limit came
back, truncates to the first `limit` rows exactly when `More` (otherwise
returning the rows unchanged), and overwrites `Size` with the computed
limit. -/
theorem C3_PrepareResult {α : Type} (o : PaginatorOption) (rows : List α)
    (pg : Pgkit.Page) :
    ((Paginator.PrepareResult o rows pg).2.More =
      decide (rows.length > Page.Limit (some pg))) ∧
    (Paginator.PrepareResult o rows pg).1 =
      (if rows.length > Page.Limit (some pg)
       then rows.take (Page.Limit (some pg)) else rows) ∧
    (Paginator.PrepareResult o rows pg).2.Size = Page.Limit (some pg) := by
  refine ⟨rfl, rfl, ?_⟩
  show u32 (Page.Limit (some pg)) = Page.Limit (some pg)
  have h := limit_le (some pg)
  simp only [u32]
  omega

theorem matcherOrderByMatch_eq_any (s : String) :
    matcherOrderByMatch s = s.toList.any Char.isAlphanum := by
  rw [Bool.eq_iff_iff]
  simp only [matcherOrderByMatch, List.any_eq_true]
  constructor
  · rintro ⟨t, ht, w, hw, hmw⟩
    rw [List.mem_tails] at ht
    rw [List.mem_inits] at hw
    obtain ⟨c, hc, hal⟩ : ∃ c ∈ w, Char.isAlphanum c = true := by
      cases w with
      | nil => exact absurd hmw (by decide)
      | cons c rest =>
        have hunf : matchesOrderByWord (c :: rest) =
            (if c = '-' then decide (rest ≠ []) && rest.all Char.isAlphanum
             else (c :: rest).all Char.isAlphanum) := rfl
        by_cases h1 : c = '-'
        · rw [hunf, if_pos h1, Bool.and_eq_true, decide_eq_true_eq] at hmw
          obtain ⟨hne, hall⟩ := hmw
          cases rest with
          | nil => exact absurd rfl hne
          | cons d rest2 =>
            rw [List.all_cons, Bool.and_eq_true] at hall
            exact ⟨d, by simp, hall.1⟩
        · rw [hunf, if_neg h1, List.all_cons, Bool.and_eq_true] at hmw
          exact ⟨c, by simp, hmw.1⟩
    exact ⟨c, ht.subset (hw.subset hc), hal⟩
  · rintro ⟨c, hc, hal⟩
    obtain ⟨l1, l2, hl⟩ := List.append_of_mem hc
    refine ⟨c :: l2, ?_, [c], ?_, ?_⟩
    · rw [List.mem_tails]
      exact ⟨l1, hl.symm⟩
    · rw [List.mem_inits]
      exact ⟨l2, rfl⟩
    · have h1 : c ≠ '-' := by
        intro h
        subst h
        exact absurd hal (by decide)
      simp [matchesOrderByWord, h1, hal]

/-- C6: `NewSort` fails exactly when the spec is empty or has no substring
matching `-?[A-Za-z0-9]+`; the match is a contains-search, so any string
containing an alphanumeric character succeeds; on success a spec starting
with `-` yields the rest of the spec with `DESC`, any other spec yields
itself with `ASC`; `NewSort "-id"` and `NewSort "id"` behave as stated. -/
theorem C6_NewSort (s : String) :
    (NewSort s = none ↔ (s = "" ∨ matcherOrderByMatch s = false)) ∧
    matcherOrderByMatch s = s.toList.any Char.isAlphanum ∧
    (s.toList.any Char.isAlphanum = true →
      ((s.toList.head? = some '-' → NewSort s = some ⟨⟨s.toList.tail⟩, Desc⟩) ∧
       (s.toList.head? ≠ some '-' → NewSort s = some ⟨s, Asc⟩))) ∧
    NewSort "-id" = some ⟨"id", Desc⟩ ∧ NewSort "id" = some ⟨"id", Asc⟩ := by
  have hcond : ((decide (s = "") || !matcherOrderByMatch s) = true) ↔
      (s = "" ∨ matcherOrderByMatch s = false) := by
    simp [Bool.or_eq_true, Bool.not_eq_true']
  refine ⟨⟨?_, ?_⟩, matcherOrderByMatch_eq_any s, ?_, by decide, by decide⟩
  · intro hn
    rw [← hcond]
    by_cases hb : (decide (s = "") || !matcherOrderByMatch s) = true
    · exact hb
    · exfalso
      unfold NewSort at hn
      rw [if_neg hb] at hn
      split at hn <;> exact Option.noConfusion hn
  · intro h
    unfold NewSort
    rw [if_pos (hcond.mpr h)]
  · intro hany
    have hm : matcherOrderByMatch s = true := by
      rw [matcherOrderByMatch_eq_any]
      exact hany
    have hs : s ≠ "" := by
      intro h
      subst h
      exact absurd hany (by decide)
    have hcondf : ¬ ((decide (s = "") || !matcherOrderByMatch s) = true) := by
      simp [hs, hm]
    constructor
    · intro hh
      unfold NewSort
      rw [if_neg hcondf, if_pos hh]
    · intro hh
      unfold NewSort
      rw [if_neg hcondf, if_neg hh]

/-- C6 witness: the general success shape applied to `"-id"`. -/
theorem C6_witness : NewSort "-id" = some ⟨⟨"-id".toList.tail⟩, Desc⟩ :=
  ((C6_NewSort "-id").2.2.1 (by decide)).1 (by decide)

/-- C7: `GetOrder` precedence: a non-empty structured `Order` list is
returned verbatim; else a nil page or empty `Column` yields the default
specs parsed by `NewSort` keeping only successes in input order; else the
`Column` string is split on `,` and each part parsed, keeping only
successes in input order. -/
theorem C7_GetOrder (p : Option Pgkit.Page) (ds : List String) :
    (∀ pg, p = some pg → pg.Order ≠ [] → Page.GetOrder p ds = pg.Order) ∧
    ((p = none ∨ ∃ pg, p = some pg ∧ pg.Order = [] ∧ pg.Column = "") →
      Page.GetOrder p ds = ds.filterMap NewSort) ∧
    (∀ pg, p = some pg → pg.Order = [] → pg.Column ≠ "" →
      Page.GetOrder p ds = (splitComma pg.Column).filterMap NewSort) := by
  refine ⟨?_, ?_, ?_⟩
  · rintro pg rfl ho
    have h : pg.Order.length ≠ 0 := by
      intro h
      exact ho (List.length_eq_zero.mp h)
    simp [Page.GetOrder, h]
  · rintro (rfl | ⟨pg, rfl, ho, hc⟩)
    · rfl
    · simp [Page.GetOrder, ho, hc]
  · rintro pg rfl ho hc
    simp [Page.GetOrder, ho, hc]

/-- C7 witness: the column-split branch applied to the page with column
spec `"a,b"`. -/
theorem C7_witness :
    Page.GetOrder (some ⟨0, 0, false, "a,b", []⟩) ["ID"] =
      (splitComma "a,b").filterMap NewSort :=
  (C7_GetOrder (some ⟨0, 0, false, "a,b", []⟩) ["ID"]).2.2
    ⟨0, 0, false, "a,b", []⟩ rfl rfl (by decide)

/-- C8: the paginator's order-string resolution maps `columnFunc` over the
column of each sort from `GetOrder` and renders each via `Sort.String()`,
producing exactly one entry per sort in the same order; an empty column
renders as `""` (still included positionally), and an empty order defaults
to `ASC`. -/
theorem C8_getOrder (o : PaginatorOption) (page : Option Pgkit.Page) :
    Paginator.getOrder o page =
      (Page.GetOrder page o.defaultSort).map
        (fun s => (applyColumnFunc o s).toString) ∧
    (Paginator.getOrder o page).length =
      (Page.GetOrder page o.defaultSort).length ∧
    (∀ s : PgSort, s.Column = "" → s.toString = "") ∧
    (∀ s : PgSort, s.Column ≠ "" →
      s.toString = s.Column ++ " " ++ (if s.Order = "" then Asc else s.Order)) := by
  refine ⟨rfl, by simp [Paginator.getOrder], ?_, ?_⟩
  · intro s h
    simp [PgSort.toString, h]
  · intro s h
    simp [PgSort.toString, h]

/-- C8 witness: an empty-column sort renders as the empty string. -/
theorem C8_witness : PgSort.toString ⟨"", "DESC"⟩ = "" :=
  (C8_getOrder ⟨10, 50, [], none⟩ none).2.2.1 ⟨"", "DESC"⟩ rfl

/-- C9 counterexample: for the page `{Size: 50, Page: 100000000}` the
recomputed offset `(100000000-1)*50 = 4999999950` exceeds `2^32`, so the
`uint32` cast truncates it and `PrepareResult` does not restore the page
number: it computes `14100654`, not `max 1 100000000`. -/
theorem C9_counterexample :
    (Paginator.PrepareResult ⟨10, 50, [], none⟩ ([] : List Nat) c9Page).2.Page =
      14100654 ∧
    (Paginator.PrepareResult ⟨10, 50, [], none⟩ ([] : List Nat) c9Page).2.Page ≠
      max 1 c9Page.Page := by
  constructor <;> decide

/-- C9 amended: for every page whose `Page` field is a `uint32` value and
whose recomputed offset `(max(Page,1)-1) * limit` fits in `uint32`,
`PrepareResult` sets `page.Page` to `max(1, the entry page.Page)`: the
division by the limit reproduces the page number exactly.  For larger
offsets the `uint32` cast truncates and the page number is not preserved. -/
theorem C9_page_preserved {α : Type} (o : PaginatorOption) (rows : List α)
    (pg : Pgkit.Page) (hpg : pg.Page < 4294967296)
    (hoff : (max pg.Page 1 - 1) * Page.Limit (some pg) < 4294967296) :
    (Paginator.PrepareResult o rows pg).2.Page = max 1 pg.Page := by
  have hle := limit_le (some pg)
  have hpos := limit_pos (some pg)
  have hu : u32 (Page.Limit (some pg)) = Page.Limit (some pg) := by
    simp only [u32]
    omega
  show u32 (1 + u32 (Page.Offset (some
      ⟨u32 (Page.Limit (some pg)), pg.Page,
       decide (rows.length > Page.Limit (some pg)), pg.Column, pg.Order⟩)) /
      u32 (Page.Limit (some pg))) = max 1 pg.Page
  rw [hu]
  have hlim2 : Page.Limit (some
      (⟨Page.Limit (some pg), pg.Page,
        decide (rows.length > Page.Limit (some pg)), pg.Column, pg.Order⟩ :
        Pgkit.Page)) = Page.Limit (some pg) := by
    simp only [Page.Limit, MaxPageSize]
    split_ifs <;> omega
  rw [offset_eq, hlim2]
  have hpf : pageField (some
      (⟨Page.Limit (some pg), pg.Page,
        decide (rows.length > Page.Limit (some pg)), pg.Column, pg.Order⟩ :
        Pgkit.Page)) = pg.Page := rfl
  rw [hpf]
  have hoffu : u32 ((max pg.Page 1 - 1) * Page.Limit (some pg)) =
      (max pg.Page 1 - 1) * Page.Limit (some pg) := by
    simp only [u32]
    omega
  rw [hoffu, Nat.mul_div_cancel _ (by omega)]
  simp only [u32]
  omega

/-- C9 witness: a concrete in-range page (`Page = 3`, `Size = 5`): the page
number 3 is reproduced. -/
theorem C9_witness :
    (Paginator.PrepareResult ⟨10, 50, [], none⟩ ([] : List Nat)
      ⟨5, 3, false, "", []⟩).2.Page = max 1 3 :=
  C9_page_preserved ⟨10, 50, [], none⟩ [] ⟨5, 3, false, "", []⟩
    (by decide) (by decide)

/-- C10: `NewPage` eagerly normalizes zero arguments (`Size` to the global
default 10, `Page` to 1), stores the sort list verbatim with `More = false`
and an empty `Column`, and always yields a nonzero `Size` — so
`PrepareQuery` on such a page never applies the paginator's configured
`defaultSize` (its result is independent of it). -/
theorem C10_NewPage (size page : Nat) (sort : List PgSort) :
    (NewPage size page sort).Size = (if size = 0 then 10 else size) ∧
    (NewPage size page sort).Page = (if page = 0 then 1 else page) ∧
    (NewPage size page sort).More = false ∧
    (NewPage size page sort).Column = "" ∧
    (NewPage size page sort).Order = sort ∧
    (NewPage size page sort).Size ≠ 0 ∧
    (∀ (o : PaginatorOption) (q : SelectBuilder) (d : Nat),
      Paginator.PrepareQuery o q (some (NewPage size page sort)) =
        Paginator.PrepareQuery { o with defaultSize := d } q
          (some (NewPage size page sort))) := by
  have hsz : (NewPage size page sort).Size ≠ 0 := by
    simp only [NewPage, DefaultPageSize]
    split_ifs <;> omega
  refine ⟨rfl, rfl, rfl, rfl, rfl, hsz, ?_⟩
  intro o q d
  rw [prepareQuery_some_eq, prepareQuery_some_eq]
  have hadj : adjustSize o (NewPage size page sort) =
      adjustSize { o with defaultSize := d } (NewPage size page sort) := by
    simp only [adjustSize, if_neg hsz]
  rw [hadj]
  rfl

end Pgkit
